import Mathlib

/-! Shallow embedding of the Mainflux MQTT adapter (src/mqtt/mqtt.js) and of the
NATS publisher with circuit breaker (ws/nats pubsub, Go), together with proofs
about the topic translation, authorization pipeline, bus bridging and connection
event stream.

Strings are modelled as `List Char` (`Str`); payload bytes as `List Nat`.
-/

namespace Mainflux

abbrev Str := List Char

abbrev Bytes := List Nat

/-- JS `String.prototype.split(sep)` for a one-character separator:
splits on every occurrence, keeping empty pieces; `''.split(sep) = ['']`. -/
def jsSplit (sep : Char) : Str → List Str
  | [] => [[]]
  | c :: cs =>
    if c = sep then [] :: jsSplit sep cs
    else
      match jsSplit sep cs with
      | [] => [[c]]
      | h :: t => (c :: h) :: t

/-- JS `Array.prototype.join(sep)` for a one-character separator. -/
def jsJoin (sep : Char) : List Str → Str
  | [] => []
  | [x] => x
  | x :: xs => x ++ sep :: jsJoin sep xs

/-- JS regexp line terminators: `.` in a regex matches any character except these. -/
def lineTerm (c : Char) : Bool :=
  c = '\n' || c = '\r' || c = ' ' || c = ' '

/-- The literal part `/messages` of the topic regex. -/
def msgMark : Str := "/messages".toList

/-- Backtracking loop of the lazy group `(.+?)` in
`/^channels\/(.+?)\/messages\/?.*$/`: tries ever longer captures (shortest
first), succeeding at the first position where the literal `/messages` follows
and the remaining suffix is matched by `\/?.*$` (i.e. is free of line
terminators). `.` does not match line terminators, so the capture cannot cross
one. -/
def scanId (acc rest : Str) : Option Str :=
  match rest with
  | [] => none
  | c :: cs =>
    if lineTerm c then none
    else if cs.take 9 = msgMark ∧ (cs.drop 9).all (fun d => !lineTerm d) then
      some (acc ++ [c])
    else scanId (acc ++ [c]) cs

/-- `parseTopic` from mqtt.js: `/^channels\/(.+?)\/messages\/?.*$/.exec(topic)`,
returning the captured group (the channel id) when the regex matches. -/
def parseTopic (topic : Str) : Option Str :=
  if topic.take 9 = "channels/".toList then scanId [] (topic.drop 9) else none

/-- The subtopic normalization of `aedes.authorizePublish`:
`topic.split('/').slice(3).join('.').split('.').filter(v => v !== '')`. -/
def elementsOf (topic : Str) : List Str :=
  (jsSplit '.' (jsJoin '.' ((jsSplit '/' topic).drop 3))).filter
    (fun s => decide (s ≠ []))

/-- The per-segment wildcard test of `aedes.authorizePublish`:
`elements[i].length > 1 && (elements[i].includes('*') || elements[i].includes('>'))`. -/
def hasWildcard (e : Str) : Bool :=
  decide (1 < e.length) && (e.contains '*' || e.contains '>')

/-- The internal-bus subject of `aedes.authorizePublish`:
`elements.length ? 'channel.' + channelId + '.' + elements.join('.') : 'channel.' + channelId`. -/
def subjectOf (chanId : Str) (elements : List Str) : Str :=
  if elements ≠ [] then
    "channel.".toList ++ chanId ++ '.' :: jsJoin '.' elements
  else
    "channel.".toList ++ chanId

/-- The internal envelope (message.proto `RawMessage`), field order as in the
object literal built by `onAuthorize`. -/
structure RawMessage where
  publisher : Str
  channel : Str
  subtopic : Str
  protocol : Str
  payload : Bytes
deriving DecidableEq

/-- The slice of aedes connection state the publish hook reads: `client.password`
(stored by `aedes.authenticate`) and `client.thingId` (set at authentication). -/
structure Client where
  thingId : Str
  password : Str
deriving DecidableEq

/-- An MQTT PUBLISH packet as seen by the hooks. -/
structure PubPacket where
  topic : Str
  payload : Bytes
deriving DecidableEq

/-- Observable actions of `aedes.authorizePublish`, in execution order:
the `things.CanAccess` RPC (with outcome), `nats.publish`, and the final
`publish(0)` (accept) / `publish(4)` (refuse) callback. -/
inductive Event where
  | canAccessCall (token chanId : Str) (ok : Bool)
  | busPublish (subject : Str) (msg : RawMessage)
  | accept
  | refuse (code : Nat)
deriving DecidableEq

/-- `aedes.authorizePublish` from mqtt.js, as the ordered trace of its
observable actions. `canAccess` is the oracle for the things service:
`canAccess token chanID = true` models the RPC calling back without error. -/
def authorizePublish (client : Client) (pkt : PubPacket)
    (canAccess : Str → Str → Bool) : List Event :=
  match parseTopic pkt.topic with
  | none => [Event.refuse 4]
  | some chanId =>
    let elements := elementsOf pkt.topic
    if elements.any hasWildcard then [Event.refuse 4]
    else if canAccess client.password chanId then
      [Event.canAccessCall client.password chanId true,
       Event.busPublish (subjectOf chanId elements)
         { publisher := client.thingId
           channel := chanId
           subtopic := jsJoin '.' elements
           protocol := "mqtt".toList
           payload := pkt.payload },
       Event.accept]
    else
      [Event.canAccessCall client.password chanId false, Event.refuse 4]

/-- `'.'`-to-`'/'` of `m.subtopic.replace(/\./g, '/')` in the bus handler. -/
def dotToSlash (c : Char) : Char :=
  if c = '.' then '/' else c

/-- MQTT topic rendered by the `nats.subscribe` handler:
`'channels/' + m.channel + '/messages' + (m.subtopic !== '' ? '/' + m.subtopic.replace(/\./g,'/') : '')`. -/
def renderTopic (channel subtopic : Str) : Str :=
  "channels/".toList ++ channel ++ "/messages".toList ++
    (if subtopic ≠ [] then '/' :: subtopic.map dotToSlash else [])

/-- The aedes publish packet built by the `nats.subscribe` handler. -/
structure MqttPacket where
  cmd : Str
  qos : Nat
  topic : Str
  payload : Bytes
  retain : Bool
deriving DecidableEq

/-- The `nats.subscribe('channel.>', {queue:'mqtts'}, …)` handler from mqtt.js.
The argument is the decoded `RawMessage` (`none` when decoding fails); the
result is the packet handed to `aedes.publish`, or `none` when the message is
dropped (decode failure, or loop suppression on `m.protocol !== 'mqtt'`). -/
def busHandler (decoded : Option RawMessage) : Option MqttPacket :=
  match decoded with
  | none => none
  | some m =>
    if m.protocol = "mqtt".toList then none
    else
      some { cmd := "publish".toList
             qos := 2
             topic := renderTopic m.channel m.subtopic
             payload := m.payload
             retain := false }

/-- The adapter's full device-to-platform topic reading, as a pair:
the regex capture (channel id) and the normalized dot-joined subtopic. -/
def parseFull (topic : Str) : Option (Str × Str) :=
  (parseTopic topic).map (fun ch => (ch, jsJoin '.' (elementsOf topic)))

/-- Configuration fields of mqtt.js read by the event-stream publisher:
`config.event_stream` (fixed `'mainflux.mqtt'`) and `config.instance_id`. -/
structure EsConfig where
  event_stream : Str
  instance_id : Str
deriving DecidableEq

/-- A value in a Redis stream record: the strings and the numeric timestamp
passed to `esclient.xadd`. -/
inductive FVal where
  | s (v : Str)
  | n (v : Nat)
deriving DecidableEq

/-- One record appended with `xadd`: the stream name and the flat field list in
argument order. -/
structure EsRecord where
  stream : Str
  fields : List (Str × FVal)
deriving DecidableEq

/-- `Math.round(ms / 1000)` for a non-negative integer millisecond clock.
JS computes this in float64; for `ms` below 2^52 the float result rounds to
the same integer as exact half-up rounding, which on naturals is
`(ms + 500) / 1000` in integer division. -/
def jsRoundSeconds (ms : Nat) : Nat :=
  (ms + 500) / 1000

/-- `publishConnEvent(id, type)` from mqtt.js: the record handed to
`esclient.xadd(config.event_stream, '*', 'thing_id', id, 'timestamp', …,
'event_type', type, 'instance', config.instance_id)`. -/
def publishConnEvent (cfg : EsConfig) (nowMs : Nat) (id : Str) (type : Str) :
    EsRecord :=
  { stream := cfg.event_stream
    fields :=
      [("thing_id".toList, FVal.s id),
       ("timestamp".toList, FVal.n (jsRoundSeconds nowMs)),
       ("event_type".toList, FVal.s type),
       ("instance".toList, FVal.s cfg.instance_id)] }

/-- aedes client state touched by `authenticate` and `clientDisconnect`:
`client.id`, `client.thingId`, `client.password` (absent modelled as `none`,
falsy empty string as `some []`). -/
structure AedesClient where
  id : Str
  thingId : Str
  password : Option Str
deriving DecidableEq

/-- Result of `aedes.authenticate`: the CONNACK decision, the updated client
state, and the records appended to the event stream. -/
structure AuthResult where
  accepted : Bool
  client : AedesClient
  events : List EsRecord
deriving DecidableEq

/-- `aedes.authenticate` from mqtt.js. `identify` is the oracle for
`things.identify`: `Except.ok v` models a callback without error where
`res.value.toString() = v`. On success the hook stores the password and thing
id on the client, accepts, and appends one `connect` record; on error it
rejects and appends nothing. -/
def authenticate (cfg : EsConfig) (nowMs : Nat) (client : AedesClient)
    (password : Option Str) (identify : Str → Except Unit Str) : AuthResult :=
  let pass := password.getD []
  match identify pass with
  | Except.ok v =>
    let tid := v
    { accepted := true
      client :=
        { id := if client.id ≠ [] then client.id else tid
          thingId := tid
          password := some pass }
      events := [publishConnEvent cfg nowMs tid "connect".toList] }
  | Except.error _ =>
    { accepted := false, client := client, events := [] }

/-- The `aedes.on('clientDisconnect', …)` handler from mqtt.js: clears the
stored password and appends one `disconnect` record. -/
def clientDisconnect (cfg : EsConfig) (nowMs : Nat) (client : AedesClient) :
    AedesClient × List EsRecord :=
  ({ client with password := none },
   [publishConnEvent cfg nowMs client.thingId "disconnect".toList])

/-- `gobreaker.Counts` (uint32 counters modelled as naturals). -/
structure GoCounts where
  requests : Nat
  totalSuccesses : Nat
  totalFailures : Nat
  consecutiveSuccesses : Nat
  consecutiveFailures : Nat
deriving DecidableEq

/-- `maxFailedReqs` from the ws/nats publisher. -/
def maxFailedReqs : Nat := 3

/-- `maxFailureRatio` from the ws/nats publisher; the Go literal `0.6` denotes
a float64, modelled exactly as the rational 3/5: for counts of uint32 size the
float64 comparison `fr >= 0.6` agrees with the exact rational comparison. -/
def maxFailureRatio : ℚ := 3 / 5

/-- The `ReadyToTrip` closure passed to `gobreaker.NewCircuitBreaker` in `New`:
`fr := float64(TotalFailures)/float64(Requests); Requests >= maxFailedReqs && fr >= maxFailureRatio`.
(When `Requests = 0` the Go expression is `NaN >= 0.6 = false` and the rational
division yields 0; the left conjunct is false either way.) -/
def readyToTrip (c : GoCounts) : Bool :=
  decide (maxFailedReqs ≤ c.requests) &&
    decide (maxFailureRatio ≤ (c.totalFailures : ℚ) / (c.requests : ℚ))

/-- `fmtSubject` from the ws/nats publisher. -/
def fmtSubject (chanID subtopic : Str) : Str :=
  if subtopic ≠ [] then
    "channel.".toList ++ chanID ++ '.' :: subtopic
  else
    "channel.".toList ++ chanID

/-- `(*natsPubSub).Publish` from the ws/nats publisher: marshal the message,
then send it on the formatted subject with `nc.Publish`. The publisher also
holds the circuit breaker built in `New` (`cbOpen` carries its state), but the
method never consults it. `marshal` is the oracle for `proto.Marshal`
(`none` models an error, which is returned without publishing). The result is
the `(subject, data)` pair handed to NATS, or `none` when nothing is sent. -/
def natsPublish (cbOpen : Bool) (marshal : RawMessage → Option Bytes)
    (msg : RawMessage) : Option (Str × Bytes) :=
  match marshal msg with
  | none => none
  | some data => some (fmtSubject msg.channel msg.subtopic, data)

theorem jsSplit_ne_nil (sep : Char) (l : Str) : jsSplit sep l ≠ [] := by
  cases l with
  | nil => simp [jsSplit]
  | cons c cs =>
    simp only [jsSplit]
    split
    · simp
    · split <;> simp

theorem jsSplit_sepFree (sep : Char) (a : Str) (ha : ∀ x ∈ a, x ≠ sep) :
    jsSplit sep a = [a] := by
  induction a with
  | nil => rfl
  | cons c cs ih =>
    have hc : c ≠ sep := ha c (by simp)
    have ih2 : jsSplit sep cs = [cs] := ih (fun x hx => ha x (by simp [hx]))
    simp [jsSplit, hc, ih2]

theorem jsSplit_append (sep : Char) (a b : Str) (ha : ∀ x ∈ a, x ≠ sep) :
    jsSplit sep (a ++ sep :: b) = a :: jsSplit sep b := by
  induction a with
  | nil => simp [jsSplit]
  | cons c cs ih =>
    have hc : c ≠ sep := ha c (by simp)
    have ih2 := ih (fun x hx => ha x (by simp [hx]))
    simp [jsSplit, hc, ih2]

theorem jsSplit_jsJoin (sep : Char) (segs : List Str) (hne : segs ≠ [])
    (h : ∀ s ∈ segs, ∀ x ∈ s, x ≠ sep) :
    jsSplit sep (jsJoin sep segs) = segs := by
  induction segs with
  | nil => exact absurd rfl hne
  | cons x xs ih =>
    cases xs with
    | nil => exact jsSplit_sepFree sep x (h x (by simp))
    | cons y ys =>
      have hx : ∀ c ∈ x, c ≠ sep := h x (by simp)
      have hrec := ih (by simp) (fun s hs => h s (by simp [hs]))
      calc jsSplit sep (jsJoin sep (x :: y :: ys))
          = jsSplit sep (x ++ sep :: jsJoin sep (y :: ys)) := rfl
        _ = x :: jsSplit sep (jsJoin sep (y :: ys)) := jsSplit_append sep x _ hx
        _ = x :: y :: ys := by rw [hrec]

theorem jsJoin_map (f : Char → Char) (sep : Char) (segs : List Str) :
    (jsJoin sep segs).map f = jsJoin (f sep) (segs.map (List.map f)) := by
  induction segs with
  | nil => rfl
  | cons x xs ih =>
    cases xs with
    | nil => rfl
    | cons y ys =>
      show (x ++ sep :: jsJoin sep (y :: ys)).map f =
        x.map f ++ f sep :: jsJoin (f sep) ((y :: ys).map (List.map f))
      rw [List.map_append, List.map_cons, ih]

theorem mem_jsJoin (sep : Char) (segs : List Str) (c : Char)
    (hc : c ∈ jsJoin sep segs) : c = sep ∨ ∃ s ∈ segs, c ∈ s := by
  induction segs with
  | nil => simp [jsJoin] at hc
  | cons x xs ih =>
    cases xs with
    | nil => exact Or.inr ⟨x, by simp, hc⟩
    | cons y ys =>
      have hm : c ∈ x ++ sep :: jsJoin sep (y :: ys) := hc
      rcases List.mem_append.mp hm with h | h
      · exact Or.inr ⟨x, by simp, h⟩
      · rcases List.mem_cons.mp h with h | h
        · exact Or.inl h
        · rcases ih h with h | ⟨s, hs, hcs⟩
          · exact Or.inl h
          · exact Or.inr ⟨s, List.mem_cons_of_mem x hs, hcs⟩

theorem jsJoin_ne_nil (sep : Char) (x : Str) (xs : List Str) (hx : x ≠ []) :
    jsJoin sep (x :: xs) ≠ [] := by
  cases xs with
  | nil => exact hx
  | cons y ys =>
    show x ++ sep :: jsJoin sep (y :: ys) ≠ []
    simp

theorem scanId_exact (ch : Str) : ∀ (acc rest : Str), ch ≠ [] →
    (∀ c ∈ ch, c ≠ '/' ∧ lineTerm c = false) →
    (∀ c ∈ rest, lineTerm c = false) →
    scanId acc (ch ++ (msgMark ++ rest)) = some (acc ++ ch) := by
  induction ch with
  | nil => intro acc rest h _ _; exact absurd rfl h
  | cons c ct ih =>
    intro acc rest _ hch hrest
    have hlt : lineTerm c = false := (hch c (by simp)).2
    cases ct with
    | nil =>
      have ht : (msgMark ++ rest).take 9 = msgMark := List.take_left' rfl
      have hd : (msgMark ++ rest).drop 9 = rest := List.drop_left' rfl
      have ha : ((msgMark ++ rest).drop 9).all (fun d => !lineTerm d) = true := by
        rw [hd]
        exact List.all_eq_true.mpr (fun d hdm => by simp [hrest d hdm])
      show scanId acc (c :: (msgMark ++ rest)) = some (acc ++ [c])
      simp [scanId, hlt, ht, ha]
    | cons d ct2 =>
      have hd_slash : d ≠ '/' := (hch d (by simp)).1
      have hcond : ¬((d :: (ct2 ++ (msgMark ++ rest))).take 9 = msgMark ∧
          ((d :: (ct2 ++ (msgMark ++ rest))).drop 9).all (fun x => !lineTerm x)
            = true) := by
        rintro ⟨hEq, -⟩
        have h2 : d :: (ct2 ++ (msgMark ++ rest)).take 8 =
            '/' :: "messages".toList := hEq
        have h3 : d = '/' ∧ (ct2 ++ (msgMark ++ rest)).take 8 =
            "messages".toList := by
          simpa using h2
        exact hd_slash h3.1
      have hrec := ih (acc ++ [c]) rest (by simp)
        (fun x hx => hch x (by simp [hx])) hrest
      show scanId acc (c :: ((d :: ct2) ++ (msgMark ++ rest))) = some (acc ++ c :: d :: ct2)
      rw [scanId.eq_def]
      simp only [hlt, Bool.false_eq_true, if_false, List.cons_append]
      rw [if_neg hcond]
      exact hrec.trans (by simp)

theorem scanId_sound (rest : Str) : ∀ (acc id : Str),
    scanId acc rest = some id →
    ∃ p s, rest = p ++ (msgMark ++ s) ∧ p ≠ [] ∧
      (∀ c ∈ p, lineTerm c = false) ∧ (∀ c ∈ s, lineTerm c = false) ∧
      id = acc ++ p := by
  induction rest with
  | nil => intro acc id h; simp [scanId] at h
  | cons c cs ih =>
    intro acc id h
    rw [scanId.eq_def] at h
    by_cases hlt : lineTerm c = true
    · simp [hlt] at h
    · have hlt2 : lineTerm c = false := by simpa using hlt
      simp only [hlt2, Bool.false_eq_true, if_false] at h
      by_cases hc : cs.take 9 = msgMark ∧
          (cs.drop 9).all (fun d => !lineTerm d) = true
      · rw [if_pos hc] at h
        refine ⟨[c], cs.drop 9, ?_, by simp, ?_, ?_, ?_⟩
        · have : cs = cs.take 9 ++ cs.drop 9 := (List.take_append_drop 9 cs).symm
          rw [hc.1] at this
          simpa using this.symm ▸ rfl
        · intro x hx
          rcases List.mem_singleton.mp hx with rfl
          exact hlt2
        · intro x hx
          have := List.all_eq_true.mp hc.2 x hx
          simpa using this
        · simpa using h.symm
      · rw [if_neg hc] at h
        obtain ⟨p, s, hcs, hpne, hp, hs, hid⟩ := ih (acc ++ [c]) id h
        refine ⟨c :: p, s, by simp [hcs], by simp, ?_, hs, by simp [hid]⟩
        intro x hx
        rcases List.mem_cons.mp hx with rfl | hx2
        · exact hlt2
        · exact hp x hx2

theorem scanId_isSome (p : Str) : ∀ (s acc : Str), p ≠ [] →
    (∀ c ∈ p, lineTerm c = false) → (∀ c ∈ s, lineTerm c = false) →
    (scanId acc (p ++ (msgMark ++ s))).isSome := by
  induction p with
  | nil => intro s acc h _ _; exact absurd rfl h
  | cons c cp ih =>
    intro s acc _ hp hs
    have hlt : lineTerm c = false := hp c (by simp)
    show (scanId acc (c :: (cp ++ (msgMark ++ s)))).isSome
    rw [scanId.eq_def]
    simp only [hlt, Bool.false_eq_true, if_false]
    by_cases hc : (cp ++ (msgMark ++ s)).take 9 = msgMark ∧
        ((cp ++ (msgMark ++ s)).drop 9).all (fun d => !lineTerm d) = true
    · rw [if_pos hc]; rfl
    · rw [if_neg hc]
      cases cp with
      | nil =>
        exfalso
        apply hc
        constructor
        · show (msgMark ++ s).take 9 = msgMark
          exact List.take_left' rfl
        · show ((msgMark ++ s).drop 9).all (fun d => !lineTerm d) = true
          have hdrop : (msgMark ++ s).drop 9 = s := List.drop_left' rfl
          rw [hdrop]
          exact List.all_eq_true.mpr (fun d hdm => by simp [hs d hdm])
      | cons d cp2 =>
        exact ih s (acc ++ [c]) (by simp)
          (fun x hx => hp x (by simp [hx])) hs

theorem authorizePublish_parse_none (client : Client) (pkt : PubPacket)
    (canAccess : Str → Str → Bool) (h : parseTopic pkt.topic = none) :
    authorizePublish client pkt canAccess = [Event.refuse 4] := by
  unfold authorizePublish
  rw [h]

theorem authorizePublish_wildcard (client : Client) (pkt : PubPacket)
    (canAccess : Str → Str → Bool) (ch : Str)
    (h : parseTopic pkt.topic = some ch)
    (hw : (elementsOf pkt.topic).any hasWildcard = true) :
    authorizePublish client pkt canAccess = [Event.refuse 4] := by
  unfold authorizePublish
  rw [h]
  simp [hw]

theorem authorizePublish_granted (client : Client) (pkt : PubPacket)
    (canAccess : Str → Str → Bool) (ch : Str)
    (h : parseTopic pkt.topic = some ch)
    (hw : (elementsOf pkt.topic).any hasWildcard = false)
    (hca : canAccess client.password ch = true) :
    authorizePublish client pkt canAccess =
      [Event.canAccessCall client.password ch true,
       Event.busPublish (subjectOf ch (elementsOf pkt.topic))
         { publisher := client.thingId
           channel := ch
           subtopic := jsJoin '.' (elementsOf pkt.topic)
           protocol := "mqtt".toList
           payload := pkt.payload },
       Event.accept] := by
  unfold authorizePublish
  rw [h]
  simp [hw, hca]

theorem authorizePublish_denied (client : Client) (pkt : PubPacket)
    (canAccess : Str → Str → Bool) (ch : Str)
    (h : parseTopic pkt.topic = some ch)
    (hw : (elementsOf pkt.topic).any hasWildcard = false)
    (hca : canAccess client.password ch = false) :
    authorizePublish client pkt canAccess =
      [Event.canAccessCall client.password ch false, Event.refuse 4] := by
  unfold authorizePublish
  rw [h]
  simp [hw, hca]

/-- C1: a PUBLISH is accepted (`publish(0)`) only after a `CanAccess` call with
the connection's stored password and the channel id parsed from the topic
returned success, and that call heads the trace, so it precedes the bus
publish; when `CanAccess` calls back with an error the packet is refused with
reason code 4 and nothing is published on the bus. -/
theorem claim_C1 (client : Client) (pkt : PubPacket)
    (canAccess : Str → Str → Bool) :
    (Event.accept ∈ authorizePublish client pkt canAccess →
      ∃ chanId, parseTopic pkt.topic = some chanId ∧
        canAccess client.password chanId = true ∧
        ∃ tl, authorizePublish client pkt canAccess =
          Event.canAccessCall client.password chanId true :: tl) ∧
    (∀ chanId, Event.canAccessCall client.password chanId false ∈
        authorizePublish client pkt canAccess →
      Event.refuse 4 ∈ authorizePublish client pkt canAccess ∧
      ∀ subj m, Event.busPublish subj m ∉ authorizePublish client pkt canAccess) := by
  cases hp : parseTopic pkt.topic with
  | none =>
    rw [authorizePublish_parse_none client pkt canAccess hp]
    constructor
    · intro h; simp at h
    · intro chanId h; simp at h
  | some ch =>
    cases hw : (elementsOf pkt.topic).any hasWildcard with
    | true =>
      rw [authorizePublish_wildcard client pkt canAccess ch hp hw]
      constructor
      · intro h; simp at h
      · intro chanId h; simp at h
    | false =>
      cases hca : canAccess client.password ch with
      | true =>
        rw [authorizePublish_granted client pkt canAccess ch hp hw hca]
        constructor
        · intro _
          exact ⟨ch, rfl, hca, _, rfl⟩
        · intro chanId h
          simp at h
      | false =>
        rw [authorizePublish_denied client pkt canAccess ch hp hw hca]
        constructor
        · intro h; simp at h
        · intro chanId _
          constructor
          · simp
          · intro subj m h
            simp at h

/-- C1 witness: on topic `channels/c/messages` with a granting (resp. denying)
things service, the accept branch (resp. the refuse branch) of C1 is realized. -/
theorem claim_C1_witness :
    (∃ chanId, parseTopic "channels/c/messages".toList = some chanId ∧
      (fun (_ _ : Str) => true) ("pw".toList) chanId = true ∧
      ∃ tl, authorizePublish ⟨"t1".toList, "pw".toList⟩
          ⟨"channels/c/messages".toList, []⟩ (fun _ _ => true) =
        Event.canAccessCall "pw".toList chanId true :: tl) ∧
    Event.refuse 4 ∈ authorizePublish ⟨"t1".toList, "pw".toList⟩
      ⟨"channels/c/messages".toList, []⟩ (fun _ _ => false) :=
  ⟨(claim_C1 ⟨"t1".toList, "pw".toList⟩ ⟨"channels/c/messages".toList, []⟩
      (fun _ _ => true)).1 (by decide),
   ((claim_C1 ⟨"t1".toList, "pw".toList⟩ ⟨"channels/c/messages".toList, []⟩
      (fun _ _ => false)).2 "c".toList (by decide)).1⟩

/-- C2: every envelope published on the internal bus by the publish hook has
`publisher` the connection's thing id, `protocol` `"mqtt"`, `channel` the
channel segment captured from the topic, `subtopic` the dot-join of the parsed
segments, `payload` the PUBLISH payload, and goes out on subject
`channel.<id>`, with the dot-joined subtopic appended when non-empty. -/
theorem claim_C2 (client : Client) (pkt : PubPacket)
    (canAccess : Str → Str → Bool) (subj : Str) (m : RawMessage)
    (h : Event.busPublish subj m ∈ authorizePublish client pkt canAccess) :
    ∃ chanId, parseTopic pkt.topic = some chanId ∧
      m.publisher = client.thingId ∧
      m.protocol = "mqtt".toList ∧
      m.channel = chanId ∧
      m.subtopic = jsJoin '.' (elementsOf pkt.topic) ∧
      m.payload = pkt.payload ∧
      subj = (if elementsOf pkt.topic ≠ [] then
        "channel.".toList ++ chanId ++ '.' :: jsJoin '.' (elementsOf pkt.topic)
      else "channel.".toList ++ chanId) := by
  cases hp : parseTopic pkt.topic with
  | none =>
    rw [authorizePublish_parse_none client pkt canAccess hp] at h
    simp at h
  | some ch =>
    cases hw : (elementsOf pkt.topic).any hasWildcard with
    | true =>
      rw [authorizePublish_wildcard client pkt canAccess ch hp hw] at h
      simp at h
    | false =>
      cases hca : canAccess client.password ch with
      | true =>
        rw [authorizePublish_granted client pkt canAccess ch hp hw hca] at h
        simp only [List.mem_cons, List.not_mem_nil, reduceCtorEq,
          or_false, false_or, Event.busPublish.injEq] at h
        obtain ⟨hsubj, hm⟩ := h
        subst hsubj
        subst hm
        exact ⟨ch, rfl, rfl, rfl, rfl, rfl, rfl, rfl⟩
      | false =>
        rw [authorizePublish_denied client pkt canAccess ch hp hw hca] at h
        simp at h

/-- C2 witness: the bus publish produced for topic
`channels/c/messages/a/b` satisfies C2's conclusion. -/
theorem claim_C2_witness :
    ∃ chanId, parseTopic "channels/c/messages/a/b".toList = some chanId ∧
      "t1".toList = "t1".toList ∧
      "mqtt".toList = "mqtt".toList ∧
      "c".toList = chanId ∧
      "a.b".toList = jsJoin '.' (elementsOf "channels/c/messages/a/b".toList) ∧
      [7] = [7] ∧
      "channel.c.a.b".toList =
        (if elementsOf "channels/c/messages/a/b".toList ≠ [] then
          "channel.".toList ++ chanId ++
            '.' :: jsJoin '.' (elementsOf "channels/c/messages/a/b".toList)
        else "channel.".toList ++ chanId) :=
  claim_C2 ⟨"t1".toList, "pw".toList⟩ ⟨"channels/c/messages/a/b".toList, [7]⟩
    (fun _ _ => true) "channel.c.a.b".toList
    ⟨"t1".toList, "c".toList, "a.b".toList, "mqtt".toList, [7]⟩
    (by decide)

/-- C4 counterexample: a PUBLISH on `channels/c/messages/*` — whose sole
subtopic segment is exactly the wildcard character `*` — is NOT refused: the
wildcard check skips length-1 segments, `CanAccess` is called, and on success
the hook accepts and publishes on the bus (on subject `channel.c.*`), contrary
to the claim that such a PUBLISH is refused with reason code 4 with no bus
publish. -/
theorem claim_C4_counterexample :
    authorizePublish ⟨"t1".toList, "pw".toList⟩
      ⟨"channels/c/messages/*".toList, [7]⟩ (fun _ _ => true) =
    [Event.canAccessCall "pw".toList "c".toList true,
     Event.busPublish "channel.c.*".toList
       ⟨"t1".toList, "c".toList, "*".toList, "mqtt".toList, [7]⟩,
     Event.accept] ∧
    Event.refuse 4 ∉ authorizePublish ⟨"t1".toList, "pw".toList⟩
      ⟨"channels/c/messages/*".toList, [7]⟩ (fun _ _ => true) := by
  decide

/-- C4 (amended): a subtopic segment of length greater than 1 that contains
`*` or `>` causes the PUBLISH to be refused with reason code 4 and no
internal-bus publish; a segment that is exactly the single character `*` or
`>` is NOT rejected by this check (the source guards the test with
`elements[i].length > 1`). -/
theorem claim_C4 (client : Client) (pkt : PubPacket)
    (canAccess : Str → Str → Bool) (e : Str)
    (he : e ∈ elementsOf pkt.topic) (hlen : 1 < e.length)
    (hwc : '*' ∈ e ∨ '>' ∈ e) :
    authorizePublish client pkt canAccess = [Event.refuse 4] := by
  have hany : (elementsOf pkt.topic).any hasWildcard = true := by
    rw [List.any_eq_true]
    refine ⟨e, he, ?_⟩
    unfold hasWildcard
    rw [Bool.and_eq_true, Bool.or_eq_true]
    refine ⟨by simpa using hlen, ?_⟩
    rcases hwc with h | h
    · exact Or.inl (by simpa using h)
    · exact Or.inr (by simpa using h)
  cases hp : parseTopic pkt.topic with
  | none => exact authorizePublish_parse_none client pkt canAccess hp
  | some ch => exact authorizePublish_wildcard client pkt canAccess ch hp hany

/-- C4 witness: the spec's own S4 scenario — topic
`channels/ch-1/messages/a*b` is refused with code 4 and nothing is published. -/
theorem claim_C4_witness :
    authorizePublish ⟨"t1".toList, "pw".toList⟩
      ⟨"channels/ch-1/messages/a*b".toList, [7]⟩ (fun _ _ => true) =
    [Event.refuse 4] :=
  claim_C4 ⟨"t1".toList, "pw".toList⟩ ⟨"channels/ch-1/messages/a*b".toList, [7]⟩
    (fun _ _ => true) "a*b".toList (by decide) (by decide) (by decide)

/-- C5 counterexample: the regex `/^channels\/(.+?)\/messages\/?.*$/` accepts
`channels/a.b/messages` (channel id containing `.`), `channels/a/b/messages`
(the lazy group swallows a `/`), and `channels/ch/messagesXYZ` (arbitrary text
directly after `messages`) — all of which the claim says are rejected. -/
theorem claim_C5_counterexample :
    parseTopic "channels/a.b/messages".toList = some "a.b".toList ∧
    parseTopic "channels/a/b/messages".toList = some "a/b".toList ∧
    parseTopic "channels/ch/messagesXYZ".toList = some "ch".toList := by
  decide

/-- C5 (amended): `parseTopic` accepts exactly the topics that decompose as
`channels/` ++ id ++ `/messages` ++ rest with id non-empty and id and rest
free of line-terminator characters (the only characters the regex's `.` does
not match). The id may contain `/` or `.` (the lazy group captures the
shortest id making the shape match), and arbitrary text may follow
`messages`. -/
theorem claim_C5 (t : Str) :
    (parseTopic t).isSome ↔
    ∃ id rest, t = "channels/".toList ++ (id ++ (msgMark ++ rest)) ∧
      id ≠ [] ∧ (∀ c ∈ id, lineTerm c = false) ∧
      (∀ c ∈ rest, lineTerm c = false) := by
  constructor
  · intro h
    rw [parseTopic] at h
    by_cases hp : t.take 9 = "channels/".toList
    · rw [if_pos hp] at h
      obtain ⟨id, hid⟩ := Option.isSome_iff_exists.mp h
      obtain ⟨p, s, hdec, hpne, hplt, hslt, -⟩ := scanId_sound (t.drop 9) [] id hid
      refine ⟨p, s, ?_, hpne, hplt, hslt⟩
      calc t = t.take 9 ++ t.drop 9 := (List.take_append_drop 9 t).symm
        _ = "channels/".toList ++ (p ++ (msgMark ++ s)) := by rw [hp, hdec]
    · rw [if_neg hp] at h
      simp at h
  · rintro ⟨id, rest, rfl, hne, hidlt, hrestlt⟩
    rw [parseTopic]
    have ht : ("channels/".toList ++ (id ++ (msgMark ++ rest))).take 9 =
        "channels/".toList := List.take_left' rfl
    have hd : ("channels/".toList ++ (id ++ (msgMark ++ rest))).drop 9 =
        id ++ (msgMark ++ rest) := List.drop_left' rfl
    rw [if_pos ht, hd]
    exact scanId_isSome id rest [] hne hidlt hrestlt

/-- C10: topics that parse to the same channel id and normalize to the same
segment sequence get the identical bus subject and envelope subtopic; in
particular `channels/c/messages/a/b`, `channels/c/messages/a.b` and
`channels/c/messages//a/b/` all map to subject `channel.c.a.b` with subtopic
`a.b`. -/
theorem claim_C10 (t1 t2 : Str) (ch : Str)
    (h1 : parseTopic t1 = some ch) (h2 : parseTopic t2 = some ch)
    (helts : elementsOf t1 = elementsOf t2) :
    (subjectOf ch (elementsOf t1) = subjectOf ch (elementsOf t2) ∧
      jsJoin '.' (elementsOf t1) = jsJoin '.' (elementsOf t2)) ∧
    (parseTopic "channels/c/messages/a/b".toList = some "c".toList ∧
      subjectOf "c".toList (elementsOf "channels/c/messages/a/b".toList) =
        "channel.c.a.b".toList ∧
      jsJoin '.' (elementsOf "channels/c/messages/a/b".toList) = "a.b".toList) ∧
    (parseTopic "channels/c/messages/a.b".toList = some "c".toList ∧
      subjectOf "c".toList (elementsOf "channels/c/messages/a.b".toList) =
        "channel.c.a.b".toList ∧
      jsJoin '.' (elementsOf "channels/c/messages/a.b".toList) = "a.b".toList) ∧
    (parseTopic "channels/c/messages//a/b/".toList = some "c".toList ∧
      subjectOf "c".toList (elementsOf "channels/c/messages//a/b/".toList) =
        "channel.c.a.b".toList ∧
      jsJoin '.' (elementsOf "channels/c/messages//a/b/".toList) = "a.b".toList) := by
  refine ⟨⟨by rw [helts], by rw [helts]⟩, ?_, ?_, ?_⟩ <;> exact ⟨by decide, by decide, by decide⟩

/-- C10 witness: instantiated at the pair `channels/c/messages/a/b`,
`channels/c/messages/a.b`, which parse to the same channel and normalize to
the same segments. -/
theorem claim_C10_witness :
    (subjectOf "c".toList (elementsOf "channels/c/messages/a/b".toList) =
        subjectOf "c".toList (elementsOf "channels/c/messages/a.b".toList) ∧
      jsJoin '.' (elementsOf "channels/c/messages/a/b".toList) =
        jsJoin '.' (elementsOf "channels/c/messages/a.b".toList)) ∧
    (parseTopic "channels/c/messages/a/b".toList = some "c".toList ∧
      subjectOf "c".toList (elementsOf "channels/c/messages/a/b".toList) =
        "channel.c.a.b".toList ∧
      jsJoin '.' (elementsOf "channels/c/messages/a/b".toList) = "a.b".toList) ∧
    (parseTopic "channels/c/messages/a.b".toList = some "c".toList ∧
      subjectOf "c".toList (elementsOf "channels/c/messages/a.b".toList) =
        "channel.c.a.b".toList ∧
      jsJoin '.' (elementsOf "channels/c/messages/a.b".toList) = "a.b".toList) ∧
    (parseTopic "channels/c/messages//a/b/".toList = some "c".toList ∧
      subjectOf "c".toList (elementsOf "channels/c/messages//a/b/".toList) =
        "channel.c.a.b".toList ∧
      jsJoin '.' (elementsOf "channels/c/messages//a/b/".toList) = "a.b".toList) :=
  claim_C10 "channels/c/messages/a/b".toList "channels/c/messages/a.b".toList
    "c".toList (by decide) (by decide) (by decide)

/-- C3: the bus-subscription handler drops every decoded envelope whose
`protocol` is `"mqtt"`, and produces an MQTT publish only for messages that
decoded successfully with a protocol different from `"mqtt"`. -/
theorem claim_C3 (m : RawMessage) (x : Option RawMessage) (p : MqttPacket) :
    (m.protocol = "mqtt".toList → busHandler (some m) = none) ∧
    (busHandler x = some p → ∃ m2, x = some m2 ∧ m2.protocol ≠ "mqtt".toList) := by
  constructor
  · intro h
    simp [busHandler, h]
  · intro h
    cases x with
    | none => simp [busHandler] at h
    | some m2 =>
      refine ⟨m2, rfl, ?_⟩
      intro hm
      simp [busHandler, hm] at h

/-- C3 witness: an `"mqtt"` envelope is dropped; the packet produced for an
`"http"` envelope certifies that its source protocol differs from `"mqtt"`. -/
theorem claim_C3_witness :
    busHandler (some ⟨"t".toList, "c".toList, [], "mqtt".toList, [1]⟩) = none ∧
    ∃ m2, (some ⟨"t".toList, "c".toList, [], "http".toList, [1]⟩ :
        Option RawMessage) = some m2 ∧ m2.protocol ≠ "mqtt".toList :=
  ⟨(claim_C3 ⟨"t".toList, "c".toList, [], "mqtt".toList, [1]⟩
      (some ⟨"t".toList, "c".toList, [], "http".toList, [1]⟩)
      ⟨"publish".toList, 2, "channels/c/messages".toList, [1], false⟩).1
      (by decide),
   (claim_C3 ⟨"t".toList, "c".toList, [], "mqtt".toList, [1]⟩
      (some ⟨"t".toList, "c".toList, [], "http".toList, [1]⟩)
      ⟨"publish".toList, 2, "channels/c/messages".toList, [1], false⟩).2
      (by decide)⟩

/-- C9: every bus message that passes loop suppression yields exactly one MQTT
publish packet with QoS 2, `retain = false`, the envelope payload, and topic
`channels/{channel}/messages`, extended by `/` plus the subtopic with every
`.` replaced by `/` when the subtopic is non-empty. -/
theorem claim_C9 (m : RawMessage) (h : m.protocol ≠ "mqtt".toList) :
    busHandler (some m) =
      some { cmd := "publish".toList
             qos := 2
             topic := if m.subtopic ≠ [] then
                 "channels/".toList ++ m.channel ++ "/messages".toList ++
                   '/' :: m.subtopic.map dotToSlash
               else "channels/".toList ++ m.channel ++ "/messages".toList
             payload := m.payload
             retain := false } := by
  have h2 : m.protocol ≠ ['m', 'q', 't', 't'] := h
  by_cases hs : m.subtopic ≠ []
  · simp [busHandler, renderTopic, h2, hs]
  · simp [busHandler, renderTopic, h2, hs]

/-- C9 witness: the packet produced for an `"http"` envelope on channel `c`
with subtopic `a.b`. -/
theorem claim_C9_witness :
    busHandler (some ⟨"t".toList, "c".toList, "a.b".toList, "http".toList, [1]⟩) =
      some { cmd := "publish".toList
             qos := 2
             topic := if ("a.b".toList : Str) ≠ [] then
                 "channels/".toList ++ "c".toList ++ "/messages".toList ++
                   '/' :: "a.b".toList.map dotToSlash
               else "channels/".toList ++ "c".toList ++ "/messages".toList
             payload := [1]
             retain := false } :=
  claim_C9 ⟨"t".toList, "c".toList, "a.b".toList, "http".toList, [1]⟩ (by decide)

theorem parseTopic_canonical (ch rest : Str) (hne : ch ≠ [])
    (hch : ∀ c ∈ ch, c ≠ '/' ∧ lineTerm c = false)
    (hrest : ∀ c ∈ rest, lineTerm c = false) :
    parseTopic ("channels/".toList ++ ch ++ "/messages".toList ++ rest) =
      some ch := by
  have hshape : "channels/".toList ++ ch ++ "/messages".toList ++ rest =
      "channels/".toList ++ (ch ++ (msgMark ++ rest)) := by
    simp [msgMark, List.append_assoc]
  rw [hshape, parseTopic]
  have ht : ("channels/".toList ++ (ch ++ (msgMark ++ rest))).take 9 =
      "channels/".toList := List.take_left' rfl
  have hd : ("channels/".toList ++ (ch ++ (msgMark ++ rest))).drop 9 =
      ch ++ (msgMark ++ rest) := List.drop_left' rfl
  rw [if_pos ht, hd]
  exact scanId_exact ch [] rest hne hch hrest

theorem jsSplit_canonical (ch tail : Str) (hch : ∀ c ∈ ch, c ≠ '/') :
    jsSplit '/' ("channels/".toList ++ ch ++ "/messages".toList ++ tail) =
      "channels".toList :: ch :: jsSplit '/' ("messages".toList ++ tail) := by
  have hshape : "channels/".toList ++ ch ++ "/messages".toList ++ tail =
      "channels".toList ++ '/' :: (ch ++ '/' :: ("messages".toList ++ tail)) := by
    simp [List.append_assoc]
  rw [hshape]
  rw [jsSplit_append '/' "channels".toList _ (by decide)]
  rw [jsSplit_append '/' ch _ hch]

theorem elementsOf_canonical_nil (ch : Str) (hch : ∀ c ∈ ch, c ≠ '/') :
    elementsOf ("channels/".toList ++ ch ++ "/messages".toList) = [] := by
  unfold elementsOf
  have h0 : "channels/".toList ++ ch ++ "/messages".toList =
      "channels/".toList ++ ch ++ "/messages".toList ++ [] := by simp
  rw [h0, jsSplit_canonical ch [] hch]
  rw [show "messages".toList ++ [] = "messages".toList from by simp]
  rw [jsSplit_sepFree '/' "messages".toList (by decide)]
  rfl

theorem elementsOf_canonical (ch : Str) (segs : List Str)
    (hch : ∀ c ∈ ch, c ≠ '/') (hne : segs ≠ [])
    (hsegs : ∀ s ∈ segs, s ≠ [] ∧ ∀ c ∈ s, c ≠ '/' ∧ c ≠ '.') :
    elementsOf ("channels/".toList ++ ch ++ "/messages".toList ++
      ('/' :: jsJoin '/' segs)) = segs := by
  unfold elementsOf
  rw [jsSplit_canonical ch _ hch]
  have hmsg : "messages".toList ++ '/' :: jsJoin '/' segs =
      "messages".toList ++ ('/' :: jsJoin '/' segs) := rfl
  rw [hmsg, jsSplit_append '/' "messages".toList _ (by decide)]
  rw [jsSplit_jsJoin '/' segs hne (fun s hs x hx => ((hsegs s hs).2 x hx).1)]
  show (jsSplit '.' (jsJoin '.' segs)).filter (fun s => decide (s ≠ [])) = segs
  rw [jsSplit_jsJoin '.' segs hne (fun s hs x hx => ((hsegs s hs).2 x hx).2)]
  rw [List.filter_eq_self]
  intro a ha
  simpa using (hsegs a ha).1

/-- C6 counterexample: the subtopic `a/b` consists of the single dot-separated
segment `a/b`, whose characters all match `[^.*>]`, yet
`parse(render("c", "a/b"))` gives `("c", "a.b")`, not `("c", "a/b")`: the `/`
inside the segment is re-split by the topic normalization. -/
theorem claim_C6_counterexample :
    parseFull (renderTopic "c".toList "a/b".toList) =
      some ("c".toList, "a.b".toList) ∧
    some ("c".toList, "a.b".toList) ≠ some ("c".toList, "a/b".toList) := by
  decide

/-- C6 (amended): the round trip holds in both directions for valid
`(channelID, subtopic)` pairs whose subtopic segments match `[^.*>]+` and in
addition contain no `/` and no line terminator, the channel id also being free
of line terminators: parsing the rendered topic returns the pair, and
rendering anything the parse returns reproduces the topic. -/
theorem claim_C6 (ch : Str) (segs : List Str) (hchne : ch ≠ [])
    (hch : ∀ c ∈ ch, c ≠ '/' ∧ c ≠ '.' ∧ lineTerm c = false)
    (hsegs : ∀ s ∈ segs, s ≠ [] ∧
      ∀ c ∈ s, c ≠ '.' ∧ c ≠ '*' ∧ c ≠ '>' ∧ c ≠ '/' ∧ lineTerm c = false) :
    parseFull (renderTopic ch (jsJoin '.' segs)) =
      some (ch, jsJoin '.' segs) ∧
    ∀ q, parseFull (renderTopic ch (jsJoin '.' segs)) = some q →
      renderTopic q.1 q.2 = renderTopic ch (jsJoin '.' segs) := by
  have hch2 : ∀ c ∈ ch, c ≠ '/' ∧ lineTerm c = false :=
    fun c hc => ⟨(hch c hc).1, (hch c hc).2.2⟩
  have main : parseFull (renderTopic ch (jsJoin '.' segs)) =
      some (ch, jsJoin '.' segs) := by
    cases segs with
    | nil =>
      have hr : renderTopic ch (jsJoin '.' ([] : List Str)) =
          "channels/".toList ++ ch ++ "/messages".toList := by
        unfold renderTopic jsJoin
        simp
      have hp : parseTopic ("channels/".toList ++ ch ++ "/messages".toList) =
          some ch := by
        have h9 := parseTopic_canonical ch [] hchne hch2 (by simp)
        simpa using h9
      have he := elementsOf_canonical_nil ch (fun c hc => (hch c hc).1)
      unfold parseFull
      rw [hr, hp, he]
      rfl
    | cons s0 st =>
      have hs0ne : s0 ≠ [] := (hsegs s0 (by simp)).1
      have hsubne : jsJoin '.' (s0 :: st) ≠ [] := jsJoin_ne_nil '.' s0 st hs0ne
      have hmap : (jsJoin '.' (s0 :: st)).map dotToSlash =
          jsJoin '/' (s0 :: st) := by
        rw [jsJoin_map dotToSlash '.' (s0 :: st)]
        have hid : (s0 :: st).map (List.map dotToSlash) = s0 :: st := by
          calc (s0 :: st).map (List.map dotToSlash)
              = (s0 :: st).map id := by
                apply List.map_congr_left
                intro s hs
                have hdot : ∀ c ∈ s, dotToSlash c = c := by
                  intro c hc
                  unfold dotToSlash
                  rw [if_neg ((hsegs s hs).2 c hc).1]
                calc s.map dotToSlash = s.map id := List.map_congr_left hdot
                  _ = s := List.map_id s
            _ = s0 :: st := List.map_id _
        rw [hid]
        show jsJoin '/' (s0 :: st) = jsJoin '/' (s0 :: st)
        rfl
      have hr : renderTopic ch (jsJoin '.' (s0 :: st)) =
          "channels/".toList ++ ch ++ "/messages".toList ++
            ('/' :: jsJoin '/' (s0 :: st)) := by
        unfold renderTopic
        rw [if_pos hsubne, hmap]
      have hrest_lt : ∀ c ∈ ('/' :: jsJoin '/' (s0 :: st)),
          lineTerm c = false := by
        intro c hc
        rcases List.mem_cons.mp hc with rfl | hc2
        · rfl
        · rcases mem_jsJoin '/' (s0 :: st) c hc2 with rfl | ⟨s, hs, hcs⟩
          · rfl
          · exact ((hsegs s hs).2 c hcs).2.2.2.2
      have hp := parseTopic_canonical ch ('/' :: jsJoin '/' (s0 :: st))
        hchne hch2 hrest_lt
      have he := elementsOf_canonical ch (s0 :: st)
        (fun c hc => (hch c hc).1) (by simp)
        (fun s hs => ⟨(hsegs s hs).1, fun c hc =>
          ⟨((hsegs s hs).2 c hc).2.2.2.1, ((hsegs s hs).2 c hc).1⟩⟩)
      unfold parseFull
      rw [hr, hp, he]
      rfl
  refine ⟨main, ?_⟩
  intro q hq
  rw [main] at hq
  injection hq with hq2
  rw [← hq2]

/-- C6 witness: the round trip at channel `c` with segments `a`, `b`. -/
theorem claim_C6_witness :
    parseFull (renderTopic "c".toList (jsJoin '.' ["a".toList, "b".toList])) =
      some ("c".toList, jsJoin '.' ["a".toList, "b".toList]) :=
  (claim_C6 "c".toList ["a".toList, "b".toList]
    (by decide) (by decide) (by decide)).1

/-- C7: the `ReadyToTrip` policy installed by `New` returns true exactly when
the window holds at least 3 requests and the failure ratio is at least 3/5;
but `Publish` never consults the breaker it stores: its outcome is identical
whatever the breaker state, and even with the breaker open a marshalled
message still reaches NATS instead of failing fast. -/
theorem claim_C7 :
    (∀ c : GoCounts, readyToTrip c = true ↔
      (3 ≤ c.requests ∧ 3 * c.requests ≤ 5 * c.totalFailures)) ∧
    (∀ (b : Bool) (marshal : RawMessage → Option Bytes) (msg : RawMessage),
      natsPublish b marshal msg = natsPublish false marshal msg) ∧
    natsPublish true (fun m => some m.payload)
        ⟨"t".toList, "ch".toList, [], "http".toList, [9]⟩ =
      some ("channel.ch".toList, [9]) := by
  refine ⟨?_, fun b marshal msg => rfl, by decide⟩
  intro c
  unfold readyToTrip maxFailedReqs maxFailureRatio
  rw [Bool.and_eq_true, decide_eq_true_eq, decide_eq_true_eq]
  constructor
  · rintro ⟨h1, h2⟩
    refine ⟨h1, ?_⟩
    have hr : (0 : ℚ) < (c.requests : ℚ) := by
      have hp : 0 < c.requests := by omega
      exact_mod_cast hp
    have h3 : (3 : ℚ) * (c.requests : ℚ) ≤ (c.totalFailures : ℚ) * 5 :=
      (div_le_div_iff₀ (by norm_num) hr).mp h2
    have h4 : 3 * c.requests ≤ c.totalFailures * 5 := by exact_mod_cast h3
    omega
  · rintro ⟨h1, h2⟩
    refine ⟨h1, ?_⟩
    have hr : (0 : ℚ) < (c.requests : ℚ) := by
      have hp : 0 < c.requests := by omega
      exact_mod_cast hp
    rw [div_le_div_iff₀ (by norm_num) hr]
    have h4 : 3 * c.requests ≤ c.totalFailures * 5 := by omega
    exact_mod_cast h4

/-- C8: a successful authentication appends exactly one `connect` record, and
a client disconnect exactly one `disconnect` record, to the configured event
stream; each record carries `thing_id`, `timestamp` (integer seconds),
`event_type`, `instance`, in that field order. -/
theorem claim_C8 (cfg : EsConfig) (nowMs : Nat) (client : AedesClient)
    (password : Option Str) (identify : Str → Except Unit Str) (tid : Str)
    (h : identify (password.getD []) = Except.ok tid) :
    (authenticate cfg nowMs client password identify).accepted = true ∧
    (authenticate cfg nowMs client password identify).events =
      [{ stream := cfg.event_stream
         fields :=
           [("thing_id".toList, FVal.s tid),
            ("timestamp".toList, FVal.n ((nowMs + 500) / 1000)),
            ("event_type".toList, FVal.s "connect".toList),
            ("instance".toList, FVal.s cfg.instance_id)] }] ∧
    (clientDisconnect cfg nowMs client).2 =
      [{ stream := cfg.event_stream
         fields :=
           [("thing_id".toList, FVal.s client.thingId),
            ("timestamp".toList, FVal.n ((nowMs + 500) / 1000)),
            ("event_type".toList, FVal.s "disconnect".toList),
            ("instance".toList, FVal.s cfg.instance_id)] }] := by
  simp [authenticate, clientDisconnect, publishConnEvent, jsRoundSeconds, h]

/-- C8 witness: a CONNECT identified as thing `t1` at clock 1000 ms and a
disconnect of a client with thing id `t9`. -/
theorem claim_C8_witness :
    (authenticate ⟨"mainflux.mqtt".toList, "i1".toList⟩ 1000
      ⟨"cid".toList, "t9".toList, none⟩ (some "pw".toList)
      (fun _ => Except.ok "t1".toList)).accepted = true ∧
    (authenticate ⟨"mainflux.mqtt".toList, "i1".toList⟩ 1000
      ⟨"cid".toList, "t9".toList, none⟩ (some "pw".toList)
      (fun _ => Except.ok "t1".toList)).events =
      [{ stream := "mainflux.mqtt".toList
         fields :=
           [("thing_id".toList, FVal.s "t1".toList),
            ("timestamp".toList, FVal.n ((1000 + 500) / 1000)),
            ("event_type".toList, FVal.s "connect".toList),
            ("instance".toList, FVal.s "i1".toList)] }] ∧
    (clientDisconnect ⟨"mainflux.mqtt".toList, "i1".toList⟩ 1000
      ⟨"cid".toList, "t9".toList, none⟩).2 =
      [{ stream := "mainflux.mqtt".toList
         fields :=
           [("thing_id".toList, FVal.s "t9".toList),
            ("timestamp".toList, FVal.n ((1000 + 500) / 1000)),
            ("event_type".toList, FVal.s "disconnect".toList),
            ("instance".toList, FVal.s "i1".toList)] }] :=
  claim_C8 ⟨"mainflux.mqtt".toList, "i1".toList⟩ 1000
    ⟨"cid".toList, "t9".toList, none⟩ (some "pw".toList)
    (fun _ => Except.ok "t1".toList) "t1".toList rfl

end Mainflux
